import Mathlib

/-!
Shallow embedding of `src/main.py` of the semantic-csv-mapper repository.

A raw table column is a name together with an ordered list of cells; a cell
is `Option String` (`none` models a null/NaN cell).  Python's regular
expressions over ASCII column names are translated pattern by pattern into
executable `Bool`-valued matchers over lower-cased character lists.
-/

namespace CsvMapper

/-- ASCII lower-casing of one character, as Python's `str.lower` acts on
ASCII input (the only input exercised by the program's patterns). -/
def lowChar (c : Char) : Char :=
  if 'A' ≤ c ∧ c ≤ 'Z' then Char.ofNat (c.toNat + 32) else c

/-- Lower-case a string into its character list. -/
def lowData (s : String) : List Char := s.data.map lowChar

/-- Whitespace class of the regex `\s`, ASCII part. -/
def isSpaceChar (c : Char) : Bool :=
  c = ' ' ∨ c = '\t' ∨ c = '\n' ∨ c = '\r' ∨ c = '\x0b' ∨ c = '\x0c'

/-- Word characters for the regex `\b` boundary. -/
def isWordChar (c : Char) : Bool := c.isAlphanum || c = '_'

/-- If `pat` is an initial segment of `s`, return the remaining characters. -/
def dropMatch : List Char → List Char → Option (List Char)
  | [], s => some s
  | _ :: _, [] => none
  | a :: as, b :: bs => if a = b then dropMatch as bs else none

/-- `pat` occurs at the start of `s`. -/
def matchesAt (pat s : List Char) : Bool := (dropMatch pat s).isSome

/-- `pat` occurs somewhere in `s` (regex `search` of a literal). -/
def containsL (pat : List Char) : List Char → Bool
  | [] => matchesAt pat []
  | c :: rest => matchesAt pat (c :: rest) || containsL pat rest

/-- `pat` occurs at the end of `s` (regex `pat$`). -/
def endsL (pat s : List Char) : Bool := matchesAt pat.reverse s.reverse

/-- `pat` occurs at the start of `s` and the next character is not a word
character (right-hand `\b`). -/
def wordHere (pat s : List Char) : Bool :=
  match dropMatch pat s with
  | none => false
  | some [] => true
  | some (c :: _) => !isWordChar c

/-- Scan `s` for a `\b pat \b` occurrence; the flag says whether the current
position sits at a word boundary (start of string or after a non-word
character). -/
def wordScan (pat : List Char) : List Char → Bool → Bool
  | [], atB => atB && wordHere pat []
  | c :: rest, atB => (atB && wordHere pat (c :: rest)) || wordScan pat rest (!isWordChar c)

/-- Regex `\b pat \b` search. -/
def containsWordL (pat s : List Char) : Bool := wordScan pat s true

/-- The characters matched by the class `[_\s-]` (ASCII). -/
def sepChars : List Char := ['_', ' ', '\t', '\n', '\r', '\x0b', '\x0c', '-']

/-- Search for `a[_\s-]?b`: the two literals, optionally separated by one
separator character. -/
def containsSep (s a b : List Char) : Bool :=
  containsL (a ++ b) s || sepChars.any (fun c => containsL (a ++ [c] ++ b) s)

/-- Anchored `^a[_\s-]?b`: match at the start of `s` only. -/
def headSep (s a b : List Char) : Bool :=
  matchesAt (a ++ b) s || sepChars.any (fun c => matchesAt (a ++ [c] ++ b) s)

def str (s : String) : List Char := s.data

/-- `PATTERNS` of `main.py`: each entry is the label, the compiled matcher
(operating on the lower-cased column name, mirroring `re.I`), and the raw
pattern text used in the report's reason string. -/
def PATTERNS : List (String × (List Char → Bool) × String) :=
  [ ("email", fun s => containsL (str "email") s || containsL (str "e-mail") s,
      "email|e-?mail"),
    ("fullName", fun s => decide (s = str "name") || containsSep s (str "full") (str "name"),
      "^name$|full[_\\s-]?name"),
    ("firstName", fun s => headSep s (str "first") (str "name") || decide (s = str "fname"),
      "^first[_\\s-]?name|^fname$"),
    ("lastName", fun s => headSep s (str "last") (str "name") || decide (s = str "lname"),
      "^last[_\\s-]?name|^lname$"),
    ("company", fun s => containsL (str "company") s || containsL (str "account") s ||
      containsL (str "org") s, "company|account|org(anization)?"),
    ("domain", fun s => containsL (str "domain") s || containsL (str "website") s ||
      containsL (str "url") s, "domain|website|url"),
    ("mrr", fun s => containsWordL (str "mrr") s || containsSep s (str "monthly") (str "recurring"),
      "\\bmrr\\b|monthly[-_\\s]?recurring"),
    ("arr", fun s => containsWordL (str "arr") s || containsSep s (str "annual") (str "recurring"),
      "\\barr\\b|annual[-_\\s]?recurring"),
    ("plan", fun s => containsL (str "plan") s || containsL (str "tier") s ||
      containsL (str "package") s, "plan|tier|package"),
    ("nps", fun s => containsWordL (str "nps") s || containsL (str "net promoter") s,
      "\\bnps\\b|net promoter"),
    ("churnFlag", fun s => containsL (str "churn") s || containsL (str "cancel") s,
      "churn|cancel"),
    ("createdAt", fun s => containsL (str "created") s || containsL (str "signup") s ||
      containsL (str "joined") s || containsL (str "start") s, "created|signup|joined|start"),
    ("lastSeen", fun s => containsSep s (str "last") (str "seen") ||
      containsSep s (str "last") (str "login") || containsL (str "activity") s,
      "last[_\\s-]?seen|last[_\\s-]?login|activity"),
    ("phone", fun s => containsL (str "phone") s || containsL (str "mobile") s ||
      containsL (str "cell") s, "phone|mobile|cell"),
    ("country", fun s => containsL (str "country") s, "country"),
    ("state", fun s => containsL (str "state") s || containsL (str "province") s ||
      containsL (str "region") s, "state|province|region"),
    ("city", fun s => containsL (str "city") s || containsL (str "town") s, "city|town"),
    ("zip", fun s => containsL (str "zip") s || containsL (str "postal") s, "zip|postal"),
    ("uuid", fun s => containsL (str "uuid") s || endsL (str "id") s || containsL (str "guid") s,
      "uuid|id$|guid"),
    ("notes", fun s => containsL (str "note") s || containsL (str "comment") s,
      "notes?|comments?") ]

/-- `STANDARD_ORDER` of `main.py`, verbatim. -/
def STANDARD_ORDER : List String :=
  [ "uuid", "email", "fullName", "firstName", "lastName", "company", "domain",
    "plan", "mrr", "arr", "nps", "churnFlag",
    "createdAt", "lastSeen", "phone", "country", "state", "city", "zip", "notes", "other" ]

/-- Value-hint `\$\s?\d`: a dollar sign, an optional whitespace, a digit. -/
def hintDollar : List Char → Bool
  | [] => false
  | '$' :: rest =>
      (match rest with
       | c :: d :: _ => c.isDigit || (isSpaceChar c && d.isDigit)
       | [c] => c.isDigit
       | [] => false) || hintDollar rest
  | _ :: rest => hintDollar rest

/-- Value-hint `\d+\.\d\d`: some digit directly before a dot with two digits
after it (regex search semantics). -/
def hintDecimal : List Char → Bool
  | [] => false
  | a :: rest =>
      (a.isDigit &&
        (match rest with
         | '.' :: b :: c :: _ => b.isDigit && c.isDigit
         | _ => false)) || hintDecimal rest

/-- `\d{4}-\d{2}-\d{2}` holds at the head of the list. -/
def dateAt : List Char → Bool
  | d1 :: d2 :: d3 :: d4 :: '-' :: m1 :: m2 :: '-' :: x1 :: x2 :: _ =>
      d1.isDigit && d2.isDigit && d3.isDigit && d4.isDigit &&
      m1.isDigit && m2.isDigit && x1.isDigit && x2.isDigit
  | _ => false

/-- Value-hint search for an ISO date `\d{4}-\d{2}-\d{2}`. -/
def hintDate : List Char → Bool
  | [] => false
  | c :: rest => dateAt (c :: rest) || hintDate rest

/-- One raw input column: a name and an ordered sequence of nullable cells. -/
structure RawColumn where
  name : String
  values : List (Option String)
deriving DecidableEq

/-- Python's `str()` applied to a cell after pandas reads it: a null cell
(float NaN) stringifies to `"nan"`. -/
def pyStr : Option String → String
  | none => "nan"
  | some s => s

/-- `guess_label` of `main.py`: first matching name pattern wins; otherwise
inspect up to 20 non-null stringified values for value hints; otherwise
abstain (`None, None`). -/
def guess_label (name : String) (values : List (Option String)) : Option (String × String) :=
  match PATTERNS.find? (fun p => p.2.1 (lowData name)) with
  | some p => some (p.1, "matched pattern " ++ p.2.2)
  | none =>
    let sample := (values.filterMap id).take 20
    if sample.any (fun v => containsL (str "@") v.data) then
      some ("email", "value hint @")
    else if sample.any (fun v => hintDollar v.data || hintDecimal v.data) then
      some ("mrr", "value hint currency")
    else if sample.any (fun v => hintDate v.data) then
      some ("createdAt", "value hint date")
    else none

/-- The column name matches some registry name pattern. -/
def nameMatched (name : String) : Bool :=
  PATTERNS.any (fun p => p.2.1 (lowData name))

/-! ## Currency normalization (`mrr` / `arr`) -/

/-- The character survives `str.replace(r"[^\d.]", "")`. -/
def keepChar (c : Char) : Bool := c.isDigit || c = '.'

/-- Residue of a cell after stripping every character that is not a digit or
a dot (the stringified cell, so a null cell contributes `"nan"` → `""`). -/
def stripCur (v : Option String) : List Char := (pyStr v).data.filter keepChar

/-- Decimal value of a digit list (most significant first). -/
def digitsVal (l : List Char) : Nat := l.foldl (fun n c => n * 10 + (c.toNat - 48)) 0

/-- Python's `float()` on a non-empty string made only of digits and dots:
defined exactly when there is at most one dot and at least one digit;
`none` models the `ValueError` that `astype(float)` raises. -/
def pyFloatDigits (l : List Char) : Option ℚ :=
  if l.count '.' = 0 then
    if l = [] then none else some (mkRat (digitsVal l) 1)
  else if l.count '.' = 1 then
    let a := l.takeWhile (fun c => c ≠ '.')
    let b := (l.dropWhile (fun c => c ≠ '.')).tail
    if a = [] ∧ b = [] then none
    else some (mkRat (digitsVal a * 10 ^ b.length + digitsVal b) (10 ^ b.length))
  else none

/-- One cell of the `mrr`/`arr` branch of `normalize`: strip, replace an
empty residue by `"0"`, parse as float.  `none` models the raised
`ValueError` (which aborts the whole column cast). -/
def normCurrencyCell (v : Option String) : Option ℚ :=
  let l := stripCur v
  pyFloatDigits (if l = [] then ['0'] else l)

/-! ## Boolean normalization (`churnFlag`) -/

/-- The Python dict passed to `.map` in the `churnFlag` branch. -/
def churnMap (t : String) : Option Bool :=
  if t = "true" then some true
  else if t = "yes" then some true
  else if t = "1" then some true
  else if t = "cancel" then some true
  else if t = "false" then some false
  else if t = "no" then some false
  else if t = "0" then some false
  else if t = "active" then some false
  else none

/-- ASCII lower-casing of a whole string. -/
def lowStr (s : String) : String := ⟨lowData s⟩

/-- One cell of the `churnFlag` branch: stringify, lower-case, look up the
truth table, `fillna(False)`. -/
def normBoolCell (v : Option String) : Bool :=
  (churnMap (lowStr (pyStr v))).getD false

/-! ## Datetime normalization (`createdAt` / `lastSeen`)

`datetime.strptime` is modelled after CPython's `_strptime`: each directive
compiles to an ordered-alternation regex (`%Y` = four digits, `%m` =
`1[0-2]|0[1-9]|[1-9]`, `%d` = `3[01]|[12]\d|0[1-9]|[1-9]`, `%H` =
`2[0-3]|[0-1]\d|\d`, `%M`/`%S` = `[0-5]\d|\d`), whitespace in the format
matches `\s+`, the whole input must be consumed, and the resulting
`datetime` constructor validates the day against the month length and
rejects year 0. -/

structure PDate where
  year : Nat
  month : Nat
  day : Nat
  hour : Nat
  minute : Nat
  second : Nat
deriving DecidableEq

def digitVal (c : Char) : Nat := c.toNat - 48

/-- `%Y`: exactly four digits. -/
def pYear : List Char → Option (Nat × List Char)
  | a :: b :: c :: d :: rest =>
      if a.isDigit ∧ b.isDigit ∧ c.isDigit ∧ d.isDigit then
        some (digitVal a * 1000 + digitVal b * 100 + digitVal c * 10 + digitVal d, rest)
      else none
  | _ => none

/-- `%m`: `1[0-2]|0[1-9]|[1-9]`, alternatives tried in that order. -/
def pMonth : List Char → Option (Nat × List Char)
  | '1' :: c :: rest =>
      if '0' ≤ c ∧ c ≤ '2' then some (10 + digitVal c, rest) else some (1, c :: rest)
  | '0' :: c :: rest =>
      if '1' ≤ c ∧ c ≤ '9' then some (digitVal c, rest) else none
  | c :: rest =>
      if '1' ≤ c ∧ c ≤ '9' then some (digitVal c, rest) else none
  | [] => none

/-- `%d`: `3[01]|[12]\d|0[1-9]|[1-9]`. -/
def pDay : List Char → Option (Nat × List Char)
  | '3' :: c :: rest =>
      if c = '0' ∨ c = '1' then some (30 + digitVal c, rest) else some (3, c :: rest)
  | c1 :: c2 :: rest =>
      if (c1 = '1' ∨ c1 = '2') ∧ c2.isDigit then some (digitVal c1 * 10 + digitVal c2, rest)
      else if c1 = '0' ∧ ('1' ≤ c2 ∧ c2 ≤ '9') then some (digitVal c2, rest)
      else if '1' ≤ c1 ∧ c1 ≤ '9' then some (digitVal c1, c2 :: rest)
      else none
  | [c] => if '1' ≤ c ∧ c ≤ '9' then some (digitVal c, []) else none
  | [] => none

/-- `%H`: `2[0-3]|[0-1]\d|\d`. -/
def pHour : List Char → Option (Nat × List Char)
  | '2' :: c :: rest =>
      if '0' ≤ c ∧ c ≤ '3' then some (20 + digitVal c, rest) else some (2, c :: rest)
  | c1 :: c2 :: rest =>
      if (c1 = '0' ∨ c1 = '1') ∧ c2.isDigit then some (digitVal c1 * 10 + digitVal c2, rest)
      else if c1.isDigit then some (digitVal c1, c2 :: rest)
      else none
  | [c] => if c.isDigit then some (digitVal c, []) else none
  | [] => none

/-- `%M` and `%S`: `[0-5]\d|\d`. -/
def pSixty : List Char → Option (Nat × List Char)
  | c1 :: c2 :: rest =>
      if ('0' ≤ c1 ∧ c1 ≤ '5') ∧ c2.isDigit then some (digitVal c1 * 10 + digitVal c2, rest)
      else if c1.isDigit then some (digitVal c1, c2 :: rest)
      else none
  | [c] => if c.isDigit then some (digitVal c, []) else none
  | [] => none

/-- A single literal character of the format. -/
def pLit (c : Char) : List Char → Option (List Char)
  | x :: rest => if x = c then some rest else none
  | [] => none

/-- Whitespace in the format matches `\s+`. -/
def pSpace : List Char → Option (List Char)
  | c :: rest => if isSpaceChar c then some (rest.dropWhile (fun x => isSpaceChar x)) else none
  | [] => none

def isLeap (y : Nat) : Bool := y % 4 = 0 ∧ (y % 100 ≠ 0 ∨ y % 400 = 0)

def daysInMonth (y m : Nat) : Nat :=
  if m = 2 then (if isLeap y then 29 else 28)
  else if m = 4 ∨ m = 6 ∨ m = 9 ∨ m = 11 then 30
  else 31

/-- The `datetime` constructor's validation (`MINYEAR = 1`; the regexes
already bound month, hour, minute and second). -/
def mkPDate (y m d hh mm ss : Nat) : Option PDate :=
  if 1 ≤ y ∧ d ≤ daysInMonth y m then some ⟨y, m, d, hh, mm, ss⟩ else none

/-- `strptime(x, "%Y-%m-%d")`. -/
def parseYMD (x : String) : Option PDate :=
  (pYear x.data).bind fun (y, r1) =>
  (pLit '-' r1).bind fun r2 =>
  (pMonth r2).bind fun (m, r3) =>
  (pLit '-' r3).bind fun r4 =>
  (pDay r4).bind fun (d, r5) =>
  if r5 = [] then mkPDate y m d 0 0 0 else none

/-- `strptime(x, "%m/%d/%Y")`. -/
def parseMDY (x : String) : Option PDate :=
  (pMonth x.data).bind fun (m, r1) =>
  (pLit '/' r1).bind fun r2 =>
  (pDay r2).bind fun (d, r3) =>
  (pLit '/' r3).bind fun r4 =>
  (pYear r4).bind fun (y, r5) =>
  if r5 = [] then mkPDate y m d 0 0 0 else none

/-- `strptime(x, "%Y-%m-%d %H:%M:%S")`. -/
def parseYMDHMS (x : String) : Option PDate :=
  (pYear x.data).bind fun (y, r1) =>
  (pLit '-' r1).bind fun r2 =>
  (pMonth r2).bind fun (m, r3) =>
  (pLit '-' r3).bind fun r4 =>
  (pDay r4).bind fun (d, r5) =>
  (pSpace r5).bind fun r6 =>
  (pHour r6).bind fun (hh, r7) =>
  (pLit ':' r7).bind fun r8 =>
  (pSixty r8).bind fun (mm, r9) =>
  (pLit ':' r9).bind fun r10 =>
  (pSixty r10).bind fun (ss, r11) =>
  if r11 = [] then mkPDate y m d hh mm ss else none

/-- The format list of `_p` in `main.py`, in source order. -/
inductive DateFmt | ymd | mdy | ymdhms
deriving DecidableEq

def strptimeF : DateFmt → String → Option PDate
  | .ymd, x => parseYMD x
  | .mdy, x => parseMDY x
  | .ymdhms, x => parseYMDHMS x

def fmtList : List DateFmt := [.ymd, .mdy, .ymdhms]

/-- The `for fmt in ...: try ... except: pass` loop of `_p`: first
successful parse wins; every failure is swallowed. -/
def tryFmts : List DateFmt → String → Option PDate
  | [], _ => none
  | f :: fs, x =>
    match strptimeF f x with
    | some d => some d
    | none => tryFmts fs x

/-- One cell of the datetime branch; `none` is the `pd.NaT` sentinel. -/
def normDateCell (v : Option String) : Option PDate :=
  tryFmts fmtList (pyStr v)

/-! ## `normalize` -/

/-- A normalized column, one constructor per dtype the `normalize`
branches can produce. -/
inductive Column
  | nums (l : List ℚ)
  | bools (l : List Bool)
  | dates (l : List (Option PDate))
  | strs (l : List (Option String))
deriving DecidableEq

/-- `mapM` over `Option`, written out so its unfolding lemmas are direct. -/
def mapMOpt (f : α → Option β) : List α → Option (List β)
  | [] => some []
  | a :: as =>
    match f a, mapMOpt f as with
    | some b, some bs => some (b :: bs)
    | _, _ => none

/-- `normalize(label, series)` of `main.py`.  The dispatch is on the final
(possibly suffix-disambiguated) label string, exactly as in the source;
`none` models the `ValueError` the currency cast can raise. -/
def normalize (label : String) (values : List (Option String)) : Option Column :=
  if label = "mrr" ∨ label = "arr" then
    (mapMOpt normCurrencyCell values).map Column.nums
  else if label = "churnFlag" then
    some (Column.bools (values.map normBoolCell))
  else if label = "createdAt" ∨ label = "lastSeen" then
    some (Column.dates (values.map normDateCell))
  else
    some (Column.strs values)

/-- One typed cell, for stating row-wise correspondence. -/
inductive CellV
  | cNum (q : ℚ)
  | cBool (b : Bool)
  | cDate (d : Option PDate)
  | cStr (s : Option String)
deriving DecidableEq

/-- The cells of a normalized column, in row order. -/
def colCells : Column → List CellV
  | .nums l => l.map .cNum
  | .bools l => l.map .cBool
  | .dates l => l.map .cDate
  | .strs l => l.map .cStr

/-- Per-cell semantics of `normalize`: what a single cell of a column with
the given final label becomes. -/
def cellNorm (label : String) (v : Option String) : Option CellV :=
  if label = "mrr" ∨ label = "arr" then (normCurrencyCell v).map .cNum
  else if label = "churnFlag" then some (.cBool (normBoolCell v))
  else if label = "createdAt" ∨ label = "lastSeen" then some (.cDate (normDateCell v))
  else some (.cStr v)

/-! ## Uniqueness resolution -/

/-- Little-endian base-10 digits computed with explicit fuel, so that the
kernel can evaluate it; agrees with `Nat.digits 10` whenever `n ≤ fuel`. -/
def digs : Nat → Nat → List Nat
  | _, 0 => []
  | 0, _ + 1 => []
  | fuel + 1, n + 1 => (n + 1) % 10 :: digs fuel ((n + 1) / 10)

/-- Decimal representation of a natural number, as Python's `str`. -/
def natReprL (n : Nat) : List Char :=
  if n = 0 then ['0'] else ((digs n n).map Nat.digitChar).reverse

def natRepr (n : Nat) : String := ⟨natReprL n⟩

/-- The f-string `f"{base}_{i}"` of the collision loop. -/
def suffixLabel (base : String) (i : Nat) : String := base ++ "_" ++ natRepr i

/-- The `while label in mapping.values()` loop, with fuel: at counter `i`
the candidate is `base_i`; on collision the counter advances. -/
def goFresh (taken : List String) (base : String) : Nat → Nat → String
  | 0, i => suffixLabel base i
  | fuel + 1, i =>
    if suffixLabel base i ∈ taken then goFresh taken base fuel (i + 1)
    else suffixLabel base i

/-- Resolve one candidate label against the already-assigned set: the
candidate itself if free, else the first free `base_i` with `i` counting up
from 2.  `taken.length + 1` rounds of fuel always suffice (see
`goFresh_not_mem`). -/
def freshLabel (taken : List String) (base : String) : String :=
  if base ∈ taken then goFresh taken base (taken.length + 1) 2 else base

/-- The uniqueness resolver run over a whole candidate sequence in input
order, starting from an initial assigned set. -/
def resolveAcc : List String → List String → List String
  | _, [] => []
  | taken, c :: cs =>
    let l := freshLabel taken c
    l :: resolveAcc (taken ++ [l]) cs

/-! ## The pipeline of `main()` -/

/-- The fallback labeler: Python's `llm_label`, abstracted as a function
from the column name and the stringified values to an optional label and
optional reason (`(None, None)` = no opinion / failure). -/
def LlmFun := String → List String → Option String × Option String

/-- The always-no-opinion labeler (no credential, failing call, or a
response carrying neither field). -/
def llmNone : LlmFun := fun _ _ => (none, none)

/-- Python truthiness of `api_key = os.getenv(...)`: `None` and `""` are
falsy. -/
def keyTruthy : Option String → Bool
  | none => false
  | some s => s ≠ ""

/-- Python's `x or default` for an optional string. -/
def pyOr (o : Option String) (d : String) : String :=
  match o with
  | some s => if s = "" then d else s
  | none => d

/-- Candidate label and reason for one column, before uniqueness
resolution: the body of the `for col in df.columns` loop up to the
`# ensure unique` comment. -/
def labelFor (apiKey : Option String) (llm : LlmFun) (col : RawColumn) : String × String :=
  match guess_label col.name col.values with
  | some lr => lr
  | none =>
    if keyTruthy apiKey then
      let r := llm col.name (col.values.map pyStr)
      (pyOr r.1 "other", pyOr r.2 "LLM fallback")
    else ("other", "no match")

/-- The whole labeling loop: produces the report triples
`(sourceColumn, finalLabel, reason)` in input order. -/
def assignAll (apiKey : Option String) (llm : LlmFun) :
    List String → List RawColumn → List (String × String × String)
  | _, [] => []
  | taken, c :: cs =>
    let (cand, reason) := labelFor apiKey llm c
    let lab := freshLabel taken cand
    (c.name, lab, reason) :: assignAll apiKey llm (taken ++ [lab]) cs

/-- `clean[dst] = normalize(dst, df[src])` for every mapping entry, in
insertion order; `none` if any column cast raises. -/
def buildClean (apiKey : Option String) (llm : LlmFun) (cols : List RawColumn) :
    Option (List (String × Column)) :=
  let dsts := (assignAll apiKey llm [] cols).map (fun t => t.2.1)
  mapMOpt (fun p => (normalize p.1 p.2).map (fun c => (p.1, c)))
    (dsts.zip (cols.map (fun c => c.values)))

/-- The reordering `clean[order]`: standard-order labels that are present
first, then the remaining labels in their insertion (= input) order. -/
def orderCols (names : List String) : List String :=
  STANDARD_ORDER.filter (fun c => names.contains c) ++
  names.filter (fun c => !STANDARD_ORDER.contains c)

/-- First entry of an association list with the given label. -/
def assocFind (l : List (String × Column)) (k : String) : Option (String × Column) :=
  l.find? (fun p => p.1 == k)

/-- End-to-end pipeline of `main()` (file I/O and the report print aside):
label every column, normalize under the final labels, reorder columns. -/
def runPipeline (apiKey : Option String) (llm : LlmFun) (cols : List RawColumn) :
    Option (List (String × Column)) :=
  match buildClean apiKey llm cols with
  | none => none
  | some clean =>
    let names := clean.map (fun p => p.1)
    some ((orderCols names).filterMap (fun l => assocFind clean l))

/-! ## Definitions taken from the specification's words (for refinement
comparisons only; the source definitions above are the authority) -/

/-- Modelled from the spec: the truth table of §4.4's boolean rule,
`{true, yes, 1, cancel} → true; {false, no, 0, active} → false`, anything
else `false`. -/
def specChurnBool (raw : String) : Bool :=
  let t := lowStr raw
  if t ∈ ["true", "yes", "1", "cancel"] then true
  else if t ∈ ["false", "no", "0", "active"] then false
  else false

/-- Modelled from the spec: the registry field order as §4.1 and claim C9
enumerate it (`mrr, arr, plan` in that relative order). -/
def specRegistryOrder : List String :=
  [ "uuid", "email", "fullName", "firstName", "lastName", "company", "domain",
    "mrr", "arr", "plan", "nps", "churnFlag",
    "createdAt", "lastSeen", "phone", "country", "state", "city", "zip", "notes", "other" ]

/-- Modelled from the spec: the assembler of §4.6 with the spec's declared
field order. -/
def specOrderCols (names : List String) : List String :=
  specRegistryOrder.filter (fun c => names.contains c) ++
  names.filter (fun c => !specRegistryOrder.contains c)

/-! ## Lemmas about the decimal representation and `freshLabel` -/

theorem data_app (a b : String) : (a ++ b).data = a.data ++ b.data := by
  cases a; cases b; rfl

theorem digs_eq_digits : ∀ (fuel n : Nat), n ≤ fuel → digs fuel n = Nat.digits 10 n
  | fuel, 0, _ => by cases fuel <;> simp [digs]
  | fuel + 1, n + 1, h => by
    rw [digs, Nat.digits_def' (by norm_num : (1 : Nat) < 10) (Nat.succ_pos n)]
    congr 1
    exact digs_eq_digits fuel ((n + 1) / 10)
      (by have := Nat.div_lt_self (Nat.succ_pos n) (by norm_num : (1 : Nat) < 10); omega)

theorem digitChar_inj : ∀ a < 10, ∀ b < 10, Nat.digitChar a = Nat.digitChar b → a = b := by
  decide

theorem map_digitChar_inj : ∀ (l₁ l₂ : List Nat), (∀ x ∈ l₁, x < 10) → (∀ x ∈ l₂, x < 10) →
    l₁.map Nat.digitChar = l₂.map Nat.digitChar → l₁ = l₂
  | [], [], _, _, _ => rfl
  | [], _ :: _, _, _, h => by simp at h
  | _ :: _, [], _, _, h => by simp at h
  | a :: as, b :: bs, h₁, h₂, h => by
    simp only [List.map_cons, List.cons.injEq] at h
    have hab := digitChar_inj a (h₁ a (by simp)) b (h₂ b (by simp)) h.1
    have htl := map_digitChar_inj as bs (fun x hx => h₁ x (by simp [hx]))
      (fun x hx => h₂ x (by simp [hx])) h.2
    rw [hab, htl]

theorem digs_self_eq (n : Nat) : digs n n = Nat.digits 10 n := digs_eq_digits n n le_rfl

theorem digs_lt (n : Nat) : ∀ x ∈ digs n n, x < 10 := by
  rw [digs_self_eq]
  exact fun x hx => Nat.digits_lt_base (by norm_num) hx

theorem natReprL_inj : ∀ a b : Nat, natReprL a = natReprL b → a = b := by
  intro a b h
  unfold natReprL at h
  split_ifs at h with ha hb hb
  · omega
  · exfalso
    have h' : (digs b b).map Nat.digitChar = ['0'] := by
      have := congrArg List.reverse h
      simpa using this.symm
    have hd : digs b b = [0] := map_digitChar_inj _ _ (digs_lt b) (by simp) (by simpa using h')
    rw [digs_self_eq] at hd
    have := Nat.ofDigits_digits 10 b
    rw [hd] at this
    simp [Nat.ofDigits] at this
    omega
  · exfalso
    have h' : (digs a a).map Nat.digitChar = ['0'] := by
      have := congrArg List.reverse h
      simpa using this
    have hd : digs a a = [0] := map_digitChar_inj _ _ (digs_lt a) (by simp) (by simpa using h')
    rw [digs_self_eq] at hd
    have := Nat.ofDigits_digits 10 a
    rw [hd] at this
    simp [Nat.ofDigits] at this
    omega
  · have h' : (digs a a).map Nat.digitChar = (digs b b).map Nat.digitChar := by
      have := congrArg List.reverse h
      simpa using this
    have hd : digs a a = digs b b := map_digitChar_inj _ _ (digs_lt a) (digs_lt b) h'
    rw [digs_self_eq, digs_self_eq] at hd
    have ha' := Nat.ofDigits_digits 10 a
    have hb' := Nat.ofDigits_digits 10 b
    rw [hd] at ha'
    omega

theorem natRepr_inj (a b : Nat) (h : natRepr a = natRepr b) : a = b := by
  apply natReprL_inj
  unfold natRepr at h
  injection h

theorem suffixLabel_inj (base : String) (i j : Nat)
    (h : suffixLabel base i = suffixLabel base j) : i = j := by
  apply natRepr_inj
  unfold suffixLabel at h
  have h' := congrArg String.data h
  rw [data_app, data_app, data_app, data_app, List.append_assoc, List.append_assoc] at h'
  have := List.append_cancel_left h'
  have := List.append_cancel_left this
  cases hn : natRepr i
  cases hm : natRepr j
  rw [hn, hm] at this
  exact congrArg String.mk (by exact this)

theorem exists_suffix_free (taken : List String) (base : String) (i : Nat) :
    ∃ j, i ≤ j ∧ j ≤ i + taken.length ∧ suffixLabel base j ∉ taken := by
  by_contra hc
  push_neg at hc
  have hnd : ((List.range (taken.length + 1)).map (fun k => suffixLabel base (i + k))).Nodup := by
    refine List.Nodup.map ?_ (List.nodup_range _)
    intro k₁ k₂ hk
    have := suffixLabel_inj base (i + k₁) (i + k₂) hk
    omega
  have hsub : ((List.range (taken.length + 1)).map
      (fun k => suffixLabel base (i + k))).toFinset ⊆ taken.toFinset := by
    intro x hx
    rw [List.mem_toFinset] at hx ⊢
    rw [List.mem_map] at hx
    obtain ⟨k, hk, rfl⟩ := hx
    rw [List.mem_range] at hk
    exact hc (i + k) (by omega) (by omega)
  have h1 := List.toFinset_card_of_nodup hnd
  have h2 := Finset.card_le_card hsub
  have h3 := List.toFinset_card_le taken
  simp only [List.length_map, List.length_range] at h1
  omega

theorem goFresh_not_mem (taken : List String) (base : String) :
    ∀ (fuel i : Nat), (∃ j, i ≤ j ∧ j ≤ i + fuel ∧ suffixLabel base j ∉ taken) →
      goFresh taken base fuel i ∉ taken
  | 0, i, ⟨j, h1, h2, h3⟩ => by
    have hj : j = i := by omega
    subst hj
    simpa [goFresh] using h3
  | fuel + 1, i, ⟨j, h1, h2, h3⟩ => by
    rw [goFresh]
    split_ifs with hmem
    · apply goFresh_not_mem taken base fuel (i + 1)
      have hji : j ≠ i := fun he => h3 (he ▸ hmem)
      exact ⟨j, by omega, by omega, h3⟩
    · exact hmem

theorem freshLabel_not_mem (taken : List String) (base : String) :
    freshLabel taken base ∉ taken := by
  unfold freshLabel
  split_ifs with h
  · apply goFresh_not_mem
    obtain ⟨j, h1, h2, h3⟩ := exists_suffix_free taken base 2
    exact ⟨j, h1, by omega, h3⟩
  · exact h

theorem mem_resolveAcc_not_taken :
    ∀ (cands taken : List String) (l : String), l ∈ resolveAcc taken cands → l ∉ taken
  | [], _, l, h => by simp [resolveAcc] at h
  | c :: cs, taken, l, h => by
    simp only [resolveAcc] at h
    rcases List.mem_cons.mp h with rfl | h'
    · exact freshLabel_not_mem taken c
    · intro hl
      exact mem_resolveAcc_not_taken cs (taken ++ [freshLabel taken c]) l h'
        (by simp [hl])

theorem resolveAcc_nodup : ∀ (cands taken : List String), (resolveAcc taken cands).Nodup
  | [], _ => by simp [resolveAcc]
  | c :: cs, taken => by
    simp only [resolveAcc]
    refine List.nodup_cons.mpr ⟨?_, resolveAcc_nodup cs _⟩
    intro hmem
    exact mem_resolveAcc_not_taken cs _ _ hmem (by simp)

/-- The labels produced by the labeling loop are exactly the uniqueness
resolver run over the per-column candidate labels. -/
theorem assignAll_labels (apiKey : Option String) (llm : LlmFun) :
    ∀ (cols : List RawColumn) (taken : List String),
      (assignAll apiKey llm taken cols).map (fun t => t.2.1) =
        resolveAcc taken (cols.map (fun c => (labelFor apiKey llm c).1))
  | [], _ => rfl
  | c :: cs, taken => by
    simp only [assignAll, resolveAcc, List.map_cons, List.cons.injEq]
    exact ⟨trivial, assignAll_labels apiKey llm cs _⟩

/-! ## Lemmas about `mapMOpt` -/

theorem mapMOpt_length (f : α → Option β) :
    ∀ (l : List α) (l' : List β), mapMOpt f l = some l' → l'.length = l.length
  | [], l', h => by simp [mapMOpt] at h; simp [← h]
  | a :: as, l', h => by
    rw [mapMOpt] at h
    cases hfa : f a with
    | none => rw [hfa] at h; simp at h
    | some b =>
      cases hrec : mapMOpt f as with
      | none => rw [hfa, hrec] at h; simp at h
      | some bs =>
        rw [hfa, hrec] at h
        simp only [Option.some.injEq] at h
        subst h
        simp [mapMOpt_length f as bs hrec]

theorem mapMOpt_getElem? (f : α → Option β) :
    ∀ (l : List α) (l' : List β), mapMOpt f l = some l' →
      ∀ i : Nat, l'[i]? = l[i]?.bind f
  | [], l', h => by
    simp [mapMOpt] at h
    subst h
    intro i
    simp
  | a :: as, l', h => by
    rw [mapMOpt] at h
    cases hfa : f a with
    | none => rw [hfa] at h; simp at h
    | some b =>
      cases hrec : mapMOpt f as with
      | none => rw [hfa, hrec] at h; simp at h
      | some bs =>
        rw [hfa, hrec] at h
        simp only [Option.some.injEq] at h
        subst h
        intro i
        cases i with
        | zero => simp [hfa]
        | succ n => simpa using mapMOpt_getElem? f as bs hrec n

theorem mapMOpt_mem (f : α → Option β) :
    ∀ (l : List α) (l' : List β), mapMOpt f l = some l' →
      ∀ b ∈ l', ∃ a ∈ l, f a = some b
  | [], l', h => by
    simp [mapMOpt] at h
    subst h
    simp
  | a :: as, l', h => by
    rw [mapMOpt] at h
    cases hfa : f a with
    | none => rw [hfa] at h; simp at h
    | some b =>
      cases hrec : mapMOpt f as with
      | none => rw [hfa, hrec] at h; simp at h
      | some bs =>
        rw [hfa, hrec] at h
        simp only [Option.some.injEq] at h
        subst h
        intro x hx
        rcases List.mem_cons.mp hx with rfl | hx'
        · exact ⟨a, by simp, hfa⟩
        · obtain ⟨a', ha', hfa'⟩ := mapMOpt_mem f as bs hrec x hx'
          exact ⟨a', by simp [ha'], hfa'⟩

theorem opt_bind_map (o : Option α) (g : α → Option β) (f : β → γ) :
    o.bind (fun v => (g v).map f) = (o.bind g).map f := by
  cases o <;> rfl

theorem opt_bind_some (o : Option α) (f : α → β) :
    o.bind (fun v => some (f v)) = o.map f := by
  cases o <;> rfl

/-- Every column of the pipeline output is the normalization of the values
of some input column under its final label. -/
theorem runPipeline_mem (apiKey : Option String) (llm : LlmFun) (cols : List RawColumn)
    (out : List (String × Column)) (h : runPipeline apiKey llm cols = some out) :
    ∀ q ∈ out, ∃ c ∈ cols, normalize q.1 c.values = some q.2 := by
  intro q hq
  rw [runPipeline] at h
  cases hb : buildClean apiKey llm cols with
  | none => rw [hb] at h; simp at h
  | some clean =>
    rw [hb] at h
    simp only [Option.some.injEq] at h
    subst h
    rw [List.mem_filterMap] at hq
    obtain ⟨l, _, hfind⟩ := hq
    have hqclean : q ∈ clean := List.mem_of_find?_eq_some hfind
    rw [buildClean] at hb
    obtain ⟨p, hp, hfp⟩ := mapMOpt_mem _ _ _ hb q hqclean
    have hzip := List.of_mem_zip hp
    obtain ⟨c, hc, hcv⟩ := List.mem_map.mp hzip.2
    cases hn : normalize p.1 p.2 with
    | none => rw [hn] at hfp; simp at hfp
    | some colv =>
      rw [hn] at hfp
      simp only [Option.map_some', Option.some.injEq] at hfp
      refine ⟨c, hc, ?_⟩
      rw [← hfp, hcv]
      exact hn

/-! ## Claim C1 -/

/-- The end-to-end scenario table of the spec. -/
def c1table : List RawColumn :=
  [ ⟨"Full Name", [some "Jane Doe"]⟩, ⟨"E-mail", [some "jane@x.com"]⟩,
    ⟨"Signup Date", [some "2023-01-05"]⟩, ⟨"MRR", [some "$120.00"]⟩ ]

/-- Claim C1, as stated, is false: on the spec's end-to-end table the
pipeline does not emit the canonical columns in the order
`["fullName", "email", "createdAt", "mrr"]` (the assembler sorts them by
`STANDARD_ORDER`, which puts `email` before `fullName` and `mrr` before
`createdAt`). -/
theorem c1_counterexample :
    (runPipeline none llmNone c1table).map (List.map Prod.fst) ≠
      some ["fullName", "email", "createdAt", "mrr"] := by decide

/-- Claim C1 (amended): on the input table with columns
`["Full Name", "E-mail", "Signup Date", "MRR"]` and the single row
`["Jane Doe", "jane@x.com", "2023-01-05", "$120.00"]`, the pipeline outputs
the canonical columns in the order `["email", "fullName", "mrr",
"createdAt"]` with values `"jane@x.com"`, `"Jane Doe"`, `120.0` and the
date 2023-01-05. -/
theorem c1_pipeline (llm : LlmFun) :
    runPipeline none llm c1table =
      some [ ("email", Column.strs [some "jane@x.com"]),
             ("fullName", Column.strs [some "Jane Doe"]),
             ("mrr", Column.nums [120]),
             ("createdAt", Column.dates [some ⟨2023, 1, 5, 0, 0, 0⟩]) ] := by rfl

/-! ## Claim C2 -/

/-- The stripped residue of a cell parses without an exception: at most one
dot and (a digit, or nothing at all). -/
def okResidue (v : Option String) : Bool :=
  ((stripCur v).count '.' ≤ 1) &&
    ((stripCur v).any (fun c => c.isDigit) || stripCur v = [])

theorem residue_split_ne (l : List Char) (hd : l.any (fun c => c.isDigit) = true) :
    ¬(l.takeWhile (fun c => c ≠ '.') = [] ∧ (l.dropWhile (fun c => c ≠ '.')).tail = []) := by
  rintro ⟨h1, h2⟩
  cases l with
  | nil => simp at hd
  | cons c t =>
    by_cases hc : c = '.'
    · subst hc
      rw [List.dropWhile_cons] at h2
      simp at h2
      subst h2
      simp at hd
    · rw [List.takeWhile_cons] at h1
      simp [hc] at h1

theorem normCurrencyCell_isSome (v : Option String) (h : okResidue v = true) :
    (normCurrencyCell v).isSome = true := by
  rw [okResidue, Bool.and_eq_true] at h
  obtain ⟨h1, h2⟩ := h
  rw [normCurrencyCell]
  by_cases hl : stripCur v = []
  · rw [if_pos hl]; decide
  · rw [if_neg hl]
    have hdig : (stripCur v).any (fun c => c.isDigit) = true := by
      rcases Bool.or_eq_true _ _ |>.mp h2 with h' | h'
      · exact h'
      · exact absurd (by simpa using h') hl
    rw [pyFloatDigits]
    rcases Nat.lt_or_ge ((stripCur v).count '.') 1 with hc | hc
    · have hc0 : (stripCur v).count '.' = 0 := by omega
      simp [hc0, hl]
    · have hc1 : (stripCur v).count '.' = 1 := by
        have : (stripCur v).count '.' ≤ 1 := by simpa using h1
        omega
      rw [if_neg (by omega), if_pos hc1]
      simp only
      rw [if_neg (residue_split_ne _ hdig)]
      simp

theorem mapMOpt_isSome (f : α → Option β) :
    ∀ (l : List α), (∀ a ∈ l, (f a).isSome = true) → (mapMOpt f l).isSome = true
  | [], _ => rfl
  | a :: as, h => by
    rw [mapMOpt]
    have ha := h a (by simp)
    have htl := mapMOpt_isSome f as (fun x hx => h x (by simp [hx]))
    cases hfa : f a with
    | none => rw [hfa] at ha; simp at ha
    | some b =>
      cases hrec : mapMOpt f as with
      | none => rw [hrec] at htl; simp at htl
      | some bs => rfl

/-- Claim C2, as stated, is false: the currency cast is not total.  On the
cell `"1.2.3"` the stripped residue keeps both dots and `astype(float)`
raises (`none` in the model) instead of degrading gracefully. -/
theorem c2_counterexample : normalize "mrr" [some "1.2.3"] = none := by decide

/-- Claim C2 (amended): for `mrr`/`arr` the normalizer depends only on the
residue left after stripping every character that is not a digit or a dot,
an empty residue parses as `0`, and the cast succeeds whenever every cell's
residue has at most one dot and is empty or contains a digit — but it is
not total: a residue with two dots (e.g. from `"1.2.3"`) raises. -/
theorem c2_currency :
    (∀ v w : Option String, stripCur v = stripCur w →
      normCurrencyCell v = normCurrencyCell w) ∧
    (∀ v : Option String, stripCur v = [] → normCurrencyCell v = some 0) ∧
    (∀ (label : String) (vals : List (Option String)),
      (label = "mrr" ∨ label = "arr") → (∀ v ∈ vals, okResidue v = true) →
      (normalize label vals).isSome = true) := by
  refine ⟨?_, ?_, ?_⟩
  · intro v w h
    rw [normCurrencyCell, normCurrencyCell, h]
  · intro v h
    rw [normCurrencyCell, if_pos h]
    decide
  · intro label vals hlab hok
    rw [normalize, if_pos hlab]
    have := mapMOpt_isSome normCurrencyCell vals
      (fun v hv => normCurrencyCell_isSome v (hok v hv))
    cases hm : mapMOpt normCurrencyCell vals with
    | none => rw [hm] at this; simp at this
    | some qs => simp [hm]

/-- Witness for C2: `"$1,2x0"` degrades gracefully — it normalizes exactly
like `"120"`, and the `mrr` cast on it succeeds. -/
theorem c2_currency_witness :
    normCurrencyCell (some "$1,2x0") = normCurrencyCell (some "120") ∧
    (normalize "mrr" [some "$1,2x0"]).isSome = true := by
  constructor
  · exact c2_currency.1 _ _ (by decide)
  · exact c2_currency.2.2 "mrr" [some "$1,2x0"] (Or.inl rfl) (by decide)

/-! ## Claim C3 -/

/-- Claim C3: the final assigned labels are pairwise distinct for every
candidate sequence; the resolved label never collides with an
already-assigned one (the numeric suffix counts up from 2 past taken
suffixes); and the concrete collision scenario: columns `"Plan"` and
`"plan_type"` both classify as `plan` and come out as `plan`, `plan_2` in
input order. -/
theorem c3_uniqueness :
    (∀ cands : List String, (resolveAcc [] cands).Nodup) ∧
    (∀ (taken : List String) (base : String), freshLabel taken base ∉ taken) ∧
    (assignAll none llmNone [] [⟨"Plan", [some "gold"]⟩, ⟨"plan_type", [some "basic"]⟩]).map
        (fun t => (t.1, t.2.1)) =
      [("Plan", "plan"), ("plan_type", "plan_2")] := by
  refine ⟨fun cands => resolveAcc_nodup cands [], freshLabel_not_mem, by decide⟩

/-! ## Claim C4 -/

/-- Claim C4: whenever the column name matches some registry name pattern,
classification is independent of the column's values — pattern precedence
always wins over value heuristics. -/
theorem c4_pattern_wins (name : String) (v₁ v₂ : List (Option String))
    (h : nameMatched name = true) :
    guess_label name v₁ = guess_label name v₂ := by
  rw [guess_label, guess_label]
  cases hf : PATTERNS.find? (fun p => p.2.1 (lowData name)) with
  | some p => simp
  | none =>
    exfalso
    have hall := List.find?_eq_none.mp hf
    rw [nameMatched, List.any_eq_true] at h
    obtain ⟨p, hp, hm⟩ := h
    exact absurd hm (by simpa using hall p hp)

/-- Witness for C4 at the column name `"MRR"` with two different value
lists (one of which would trigger the email value hint on its own). -/
theorem c4_pattern_wins_witness :
    nameMatched "MRR" = true ∧
    guess_label "MRR" [] = guess_label "MRR" [some "a@b"] :=
  ⟨by decide, c4_pattern_wins "MRR" [] [some "a@b"] (by decide)⟩

/-! ## Claim C5 -/

/-- Claim C5: for the datetime labels, `normalize` works cell by cell; each
cell tries `%Y-%m-%d`, then `%m/%d/%Y`, then `%Y-%m-%d %H:%M:%S`, keeping
the first success; when every format fails, the cell becomes the `NaT`
sentinel (`none`, distinct by type from any date) — the dispatch itself
never fails (`some` column always comes back). -/
theorem c5_dates (label : String) (h : label = "createdAt" ∨ label = "lastSeen") :
    (∀ vals : List (Option String),
      normalize label vals = some (Column.dates (vals.map normDateCell))) ∧
    (∀ (v : Option String) (d : PDate),
      strptimeF .ymd (pyStr v) = some d → normDateCell v = some d) ∧
    (∀ (v : Option String) (d : PDate), strptimeF .ymd (pyStr v) = none →
      strptimeF .mdy (pyStr v) = some d → normDateCell v = some d) ∧
    (∀ v : Option String, strptimeF .ymd (pyStr v) = none →
      strptimeF .mdy (pyStr v) = none → normDateCell v = strptimeF .ymdhms (pyStr v)) := by
  have hne1 : ¬(label = "mrr" ∨ label = "arr") := by rcases h with rfl | rfl <;> decide
  have hne2 : ¬(label = "churnFlag") := by rcases h with rfl | rfl <;> decide
  refine ⟨?_, ?_, ?_, ?_⟩
  · intro vals
    rw [normalize, if_neg hne1, if_neg hne2, if_pos h]
  · intro v d hd
    simp only [normDateCell, fmtList, tryFmts, hd]
  · intro v d h1 h2
    simp only [normDateCell, fmtList, tryFmts, h1, h2]
  · intro v h1 h2
    simp only [normDateCell, fmtList, tryFmts, h1, h2]
    cases strptimeF .ymdhms (pyStr v) <;> rfl

/-- Witness for C5: the three scenarios of the spec, `"2023-01-05"`,
`"01/05/2023"` and `"not-a-date"`. -/
theorem c5_dates_witness :
    normalize "createdAt" [some "2023-01-05", some "01/05/2023", some "not-a-date"] =
      some (Column.dates
        [some ⟨2023, 1, 5, 0, 0, 0⟩, some ⟨2023, 1, 5, 0, 0, 0⟩, none]) ∧
    normDateCell (some "01/05/2023") = some ⟨2023, 1, 5, 0, 0, 0⟩ := by
  have h := c5_dates "createdAt" (Or.inl rfl)
  constructor
  · rw [h.1 [some "2023-01-05", some "01/05/2023", some "not-a-date"]]
    decide
  · exact h.2.2.1 (some "01/05/2023") ⟨2023, 1, 5, 0, 0, 0⟩ (by decide) (by decide)

/-! ## Claim C6 -/

theorem churn_pointwise (t : String) :
    (churnMap t).getD false =
      (if t ∈ ["true", "yes", "1", "cancel"] then true
       else if t ∈ ["false", "no", "0", "active"] then false
       else false) := by
  rw [churnMap]
  split_ifs <;> simp_all

/-- Claim C6: the `churnFlag` normalizer lower-cases the stringified cell
and applies exactly the spec's truth table, defaulting everything outside
it to `false`; in particular `"Yes"` ↦ `true`, `"0"` ↦ `false`, `"banana"`
↦ `false`. -/
theorem c6_boolean :
    (∀ v : Option String,
      normalize "churnFlag" [v] = some (Column.bools [specChurnBool (pyStr v)])) ∧
    normBoolCell (some "Yes") = true ∧ normBoolCell (some "0") = false ∧
    normBoolCell (some "banana") = false := by
  refine ⟨?_, by decide, by decide, by decide⟩
  intro v
  have hpt : normBoolCell v = specChurnBool (pyStr v) := by
    rw [normBoolCell, specChurnBool]
    exact churn_pointwise (lowStr (pyStr v))
  rw [normalize, if_neg (by decide), if_pos rfl]
  simp [hpt]

/-! ## Claim C7 -/

/-- Claim C7, as stated, is false: when a credential is configured and the
external labeler yields no opinion, the reason recorded is
`"LLM fallback"`, not `"no match"` (the label is still `"other"`). -/
theorem c7_counterexample :
    labelFor (some "k") llmNone ⟨"zzz", []⟩ ≠ ("other", "no match") ∧
    labelFor (some "k") llmNone ⟨"zzz", []⟩ = ("other", "LLM fallback") := by decide

/-- Claim C7 (amended): when the heuristic classifier abstains and the
fallback labeler yields no opinion, the column is assigned the literal
label `"other"` before uniqueness resolution; the reason is `"no match"`
when no credential is configured, and `"LLM fallback"` when a credential
is configured and the external call failed or returned nothing. -/
theorem c7_default (apiKey : Option String) (llm : LlmFun) (col : RawColumn)
    (h1 : guess_label col.name col.values = none)
    (h2 : llm col.name (col.values.map pyStr) = (none, none)) :
    labelFor apiKey llm col =
      ("other", if keyTruthy apiKey then "LLM fallback" else "no match") := by
  simp only [labelFor, h1]
  by_cases hk : keyTruthy apiKey
  · simp [hk, h2, pyOr]
  · simp [hk]

/-- Witness for C7 at an unclassifiable column with no credential. -/
theorem c7_default_witness :
    labelFor none llmNone ⟨"zzz", []⟩ = ("other", "no match") := by
  have h := c7_default none llmNone ⟨"zzz", []⟩ (by decide) rfl
  simpa using h

/-! ## Claim C8 -/

/-- Claim C8: a normalized column has exactly as many cells as its source
column and its row `i` is the per-cell normalization of source row `i`
(nothing is dropped, added or reordered); moreover every column the
pipeline outputs is the normalization of the values of one of the input
columns (assembly reorders columns, not rows). -/
theorem c8_rows :
    (∀ (label : String) (vals : List (Option String)) (col : Column),
      normalize label vals = some col →
      (colCells col).length = vals.length ∧
      ∀ i : Nat, (colCells col)[i]? = vals[i]?.bind (cellNorm label)) ∧
    (∀ (apiKey : Option String) (llm : LlmFun) (cols : List RawColumn)
      (out : List (String × Column)), runPipeline apiKey llm cols = some out →
      ∀ q ∈ out, ∃ c ∈ cols, normalize q.1 c.values = some q.2) := by
  refine ⟨?_, runPipeline_mem⟩
  intro label vals col h
  rw [normalize] at h
  by_cases h1 : label = "mrr" ∨ label = "arr"
  · rw [if_pos h1] at h
    have hc : cellNorm label = fun v => (normCurrencyCell v).map CellV.cNum := by
      funext v
      rw [cellNorm, if_pos h1]
    cases hm : mapMOpt normCurrencyCell vals with
    | none => rw [hm] at h; simp at h
    | some qs =>
      rw [hm] at h
      simp only [Option.map_some', Option.some.injEq] at h
      subst h
      constructor
      · simp [colCells, mapMOpt_length normCurrencyCell vals qs hm]
      · intro i
        simp only [colCells]
        rw [List.getElem?_map, hc, opt_bind_map,
          ← mapMOpt_getElem? normCurrencyCell vals qs hm i]
  · rw [if_neg h1] at h
    by_cases h2 : label = "churnFlag"
    · rw [if_pos h2] at h
      simp only [Option.some.injEq] at h
      subst h
      have hc : cellNorm label = fun v => some (CellV.cBool (normBoolCell v)) := by
        funext v
        rw [cellNorm, if_neg h1, if_pos h2]
      constructor
      · simp [colCells]
      · intro i
        simp only [colCells, hc]
        rw [List.getElem?_map, List.getElem?_map, opt_bind_some, Option.map_map]
        rfl
    · rw [if_neg h2] at h
      by_cases h3 : label = "createdAt" ∨ label = "lastSeen"
      · rw [if_pos h3] at h
        simp only [Option.some.injEq] at h
        subst h
        have hc : cellNorm label = fun v => some (CellV.cDate (normDateCell v)) := by
          funext v
          rw [cellNorm, if_neg h1, if_neg h2, if_pos h3]
        constructor
        · simp [colCells]
        · intro i
          simp only [colCells, hc]
          rw [List.getElem?_map, List.getElem?_map, opt_bind_some, Option.map_map]
          rfl
      · rw [if_neg h3] at h
        simp only [Option.some.injEq] at h
        subst h
        have hc : cellNorm label = fun v => some (CellV.cStr v) := by
          funext v
          rw [cellNorm, if_neg h1, if_neg h2, if_neg h3]
        constructor
        · simp [colCells]
        · intro i
          simp only [colCells, hc]
          rw [List.getElem?_map, opt_bind_some]

/-- Witness for C8 on a one-row `mrr` column. -/
theorem c8_rows_witness :
    (colCells (Column.nums [(5 : ℚ)])).length = 1 ∧
    (colCells (Column.nums [(5 : ℚ)]))[0]? = some (CellV.cNum 5) := by
  have hn : normalize "mrr" [some "$5"] = some (Column.nums [(5 : ℚ)]) := by decide
  have h := c8_rows.1 "mrr" [some "$5"] _ hn
  refine ⟨by simpa using h.1, ?_⟩
  rw [h.2 0]
  decide

/-! ## Claim C9 -/

/-- Claim C9, as stated, is false: the code's `STANDARD_ORDER` places
`plan` before `mrr` and `arr`, while the claim's declared order places
`mrr, arr` before `plan`.  A run containing both an `mrr` and a `plan`
column outputs `plan` first, whereas the claimed order demands `mrr`
first. -/
theorem c9_counterexample :
    (runPipeline none llmNone [⟨"MRR", [some "$1"]⟩, ⟨"Plan", [some "gold"]⟩]).map
        (List.map Prod.fst) = some ["plan", "mrr"] ∧
    specOrderCols ["mrr", "plan"] = ["mrr", "plan"] ∧
    (["plan", "mrr"] : List String) ≠ ["mrr", "plan"] := by decide

/-- Claim C9 (amended): the assembler places the columns whose label is a
registry field first, ordered by the code's declared field order — `uuid,
email, fullName, firstName, lastName, company, domain, plan, mrr, arr,
nps, churnFlag, createdAt, lastSeen, phone, country, state, city, zip,
notes, other` — and all remaining (suffix-disambiguated) columns follow
afterward in their original input order. -/
theorem c9_assembler :
    STANDARD_ORDER =
      ["uuid", "email", "fullName", "firstName", "lastName", "company", "domain",
       "plan", "mrr", "arr", "nps", "churnFlag", "createdAt", "lastSeen", "phone",
       "country", "state", "city", "zip", "notes", "other"] ∧
    (∀ names : List String, ∃ A B, orderCols names = A ++ B ∧
      A.Sublist STANDARD_ORDER ∧ B.Sublist names ∧
      (∀ l ∈ A, l ∈ STANDARD_ORDER ∧ l ∈ names) ∧
      (∀ l ∈ B, l ∈ names ∧ l ∉ STANDARD_ORDER) ∧
      (∀ l ∈ names, l ∈ A ∨ l ∈ B)) := by
  refine ⟨rfl, ?_⟩
  intro names
  refine ⟨_, _, rfl, List.filter_sublist _, List.filter_sublist _, ?_, ?_, ?_⟩
  · intro l hl
    rw [List.mem_filter] at hl
    exact ⟨hl.1, by simpa using hl.2⟩
  · intro l hl
    rw [List.mem_filter] at hl
    exact ⟨hl.1, by simpa using hl.2⟩
  · intro l hl
    by_cases hs : l ∈ STANDARD_ORDER
    · left
      rw [List.mem_filter]
      exact ⟨hs, by simpa⟩
    · right
      rw [List.mem_filter]
      exact ⟨hl, by simpa⟩

/-- Witness for C9's assembler characterization at a concrete label set. -/
theorem c9_assembler_witness :
    ∃ A B, orderCols ["plan", "xcol"] = A ++ B ∧
      A.Sublist STANDARD_ORDER ∧ B.Sublist ["plan", "xcol"] ∧
      (∀ l ∈ A, l ∈ STANDARD_ORDER ∧ l ∈ ["plan", "xcol"]) ∧
      (∀ l ∈ B, l ∈ ["plan", "xcol"] ∧ l ∉ STANDARD_ORDER) ∧
      (∀ l ∈ ["plan", "xcol"], l ∈ A ∨ l ∈ B) :=
  c9_assembler.2 ["plan", "xcol"]

/-! ## Claim C10 -/

theorem underscore_mem_suffix (base : String) (n : Nat) :
    '_' ∈ (suffixLabel base n).data := by
  have h : ('_' : Char) ∈ ("_" : String).data := by decide
  rw [suffixLabel, data_app, data_app]
  exact List.mem_append.mpr (Or.inl (List.mem_append.mpr (Or.inr h)))

theorem suffix_label_identity (base : String) (n : Nat) (vals : List (Option String)) :
    normalize (suffixLabel base n) vals = some (Column.strs vals) := by
  have hu := underscore_mem_suffix base n
  have hne : ∀ s : String, '_' ∉ s.data → suffixLabel base n ≠ s :=
    fun s hs he => hs (he ▸ hu)
  have hA : ¬(suffixLabel base n = "mrr" ∨ suffixLabel base n = "arr") := by
    rintro (h | h)
    exacts [hne "mrr" (by decide) h, hne "arr" (by decide) h]
  have hB : ¬(suffixLabel base n = "churnFlag") := hne "churnFlag" (by decide)
  have hC : ¬(suffixLabel base n = "createdAt" ∨ suffixLabel base n = "lastSeen") := by
    rintro (h | h)
    exacts [hne "createdAt" (by decide) h, hne "lastSeen" (by decide) h]
  rw [normalize, if_neg hA, if_neg hB, if_neg hC]

/-- Claim C10: `normalize` dispatches on the final, possibly
suffix-disambiguated label, and no suffixed label equals a typed one, so
every suffixed column gets the identity pass-through; concretely, a second
`mrr`-classified column comes out as `mrr_2` holding the raw strings, not
parsed currency floats. -/
theorem c10_suffix_dispatch :
    (∀ (base : String) (n : Nat) (vals : List (Option String)),
      normalize (suffixLabel base n) vals = some (Column.strs vals)) ∧
    runPipeline none llmNone [⟨"MRR", [some "$1.00"]⟩, ⟨"Monthly Recurring", [some "$5"]⟩] =
      some [("mrr", Column.nums [1]), ("mrr_2", Column.strs [some "$5"])] :=
  ⟨suffix_label_identity, by decide⟩

end CsvMapper
